import Mathlib

/-!
# Verification of the F&O news aggregation core (`util.py` / `app.py`)

A shallow embedding of the repository's core pipeline:
`normalize_article`, `dedupe_articles`, `detect_mutual_fund_mentions`,
and the per-record fetch-session pipeline of `app.py`.

Raw records and normalized Articles are Python dictionaries; we model them
as insertion-ordered association lists from string keys to Python values
(`PyVal`: `None`, `str`, or a list of strings).  Python `or` is modelled by
truthiness, Python `TypeError` by the `Except` monad, and the clock read
`datetime.utcnow().isoformat()` by an explicit `nowIso` argument.
`hashlib.sha256(...).hexdigest()` is modelled by a full executable SHA-256
over the UTF-8 bytes of the input string.
-/

namespace FnoNews

/-! ## SHA-256 (models `hashlib.sha256(key.encode("utf-8")).hexdigest()`) -/

/-- 2^32, the word modulus of SHA-256. -/
def M32 : Nat := 4294967296

/-- Right rotation of a 32-bit word. -/
def rotr (n x : Nat) : Nat := ((x >>> n) ||| (x <<< (32 - n))) % M32

/-- SHA-256 small sigma 0. -/
def ssig0 (x : Nat) : Nat := (rotr 7 x) ^^^ (rotr 18 x) ^^^ (x >>> 3)

/-- SHA-256 small sigma 1. -/
def ssig1 (x : Nat) : Nat := (rotr 17 x) ^^^ (rotr 19 x) ^^^ (x >>> 10)

/-- SHA-256 big Sigma 0. -/
def bsig0 (x : Nat) : Nat := (rotr 2 x) ^^^ (rotr 13 x) ^^^ (rotr 22 x)

/-- SHA-256 big Sigma 1. -/
def bsig1 (x : Nat) : Nat := (rotr 6 x) ^^^ (rotr 11 x) ^^^ (rotr 25 x)

/-- SHA-256 choice function; complement is xor against the 32-bit mask. -/
def chF (x y z : Nat) : Nat := (x &&& y) ^^^ ((x ^^^ 4294967295) &&& z)

/-- SHA-256 majority function. -/
def majF (x y z : Nat) : Nat := (x &&& y) ^^^ (x &&& z) ^^^ (y &&& z)

/-- The 64 SHA-256 round constants, written in decimal. -/
def K256 : List Nat :=
  [1116352408, 1899447441, 3049323471, 3921009573, 961987163, 1508970993,
   2453635748, 2870763221, 3624381080, 310598401, 607225278, 1426881987,
   1925078388, 2162078206, 2614888103, 3248222580, 3835390401, 4022224774,
   264347078, 604807628, 770255983, 1249150122, 1555081692, 1996064986,
   2554220882, 2821834349, 2952996808, 3210313671, 3336571891, 3584528711,
   113926993, 338241895, 666307205, 773529912, 1294757372, 1396182291,
   1695183700, 1986661051, 2177026350, 2456956037, 2730485921, 2820302411,
   3259730800, 3345764771, 3516065817, 3600352804, 4094571909, 275423344,
   430227734, 506948616, 659060556, 883997877, 958139571, 1322822218,
   1537002063, 1747873779, 1955562222, 2024104815, 2227730452, 2361852424,
   2428436474, 2756734187, 3204031479, 3329325298]

/-- The SHA-256 initial hash value, written in decimal. -/
def H0 : List Nat :=
  [1779033703, 3144134277, 1013904242, 2773480762,
   1359893119, 2600822924, 528734635, 1541459225]

/-- Big-endian bytes of a number, fixed width. -/
def beBytes : Nat → Nat → List Nat
  | 0, _ => []
  | n + 1, x => beBytes n (x >>> 8) ++ [x &&& 255]

/-- SHA-256 padding: append `0x80`, zeros, and the 64-bit big-endian bit length. -/
def padBytes (msg : List Nat) : List Nat :=
  let L := msg.length
  let k := (56 + 64 - (L + 1) % 64) % 64
  msg ++ [0x80] ++ List.replicate k 0 ++ beBytes 8 (8 * L)

/-- Group bytes into big-endian 32-bit words. -/
def bytesToWords : List Nat → List Nat
  | b0 :: b1 :: b2 :: b3 :: rest =>
      ((b0 <<< 24) ||| (b1 <<< 16) ||| (b2 <<< 8) ||| b3) :: bytesToWords rest
  | _ => []

/-- Split into 64-byte blocks, with a structural fuel bound for kernel reduction. -/
def chunks64Go : Nat → List Nat → List (List Nat)
  | 0, _ => []
  | _, [] => []
  | n + 1, l => l.take 64 :: chunks64Go n (l.drop 64)

/-- Split a byte list into 64-byte blocks. -/
def chunks64 (l : List Nat) : List (List Nat) := chunks64Go l.length l

/-- Message-schedule extension, accumulator kept most-recent-first. -/
def schedRev (w : List Nat) : Nat → List Nat
  | 0 => w
  | n + 1 =>
      let nw := (ssig1 (w.getD 1 0) + w.getD 6 0 + ssig0 (w.getD 14 0) + w.getD 15 0) % M32
      schedRev (nw :: w) n

/-- The 64-word message schedule of a 16-word block. -/
def msgSchedule (chunk : List Nat) : List Nat := (schedRev chunk.reverse 48).reverse

/-- One SHA-256 round on the 8-word working state. -/
def roundStep (st : List Nat) (kw : Nat × Nat) : List Nat :=
  match st with
  | [a, b, c, d, e, f, g, h] =>
      let t1 := (h + bsig1 e + chF e f g + kw.1 + kw.2) % M32
      let t2 := (bsig0 a + majF a b c) % M32
      [(t1 + t2) % M32, a, b, c, (d + t1) % M32, e, f, g]
  | st => st

/-- The SHA-256 compression function on one 16-word block. -/
def compress (hs : List Nat) (chunk : List Nat) : List Nat :=
  let st := (K256.zip (msgSchedule chunk)).foldl roundStep hs
  (hs.zip st).map (fun p => (p.1 + p.2) % M32)

/-- SHA-256 digest of a byte list, as eight 32-bit words. -/
def sha256Words (msg : List Nat) : List Nat :=
  (chunks64 (padBytes msg)).foldl (fun hs ch => compress hs (bytesToWords ch)) H0

/-- A lowercase hexadecimal digit. -/
def hexDigit (n : Nat) : Char := if n < 10 then Char.ofNat (48 + n) else Char.ofNat (87 + n)

/-- Lowercase hexadecimal rendering of a 32-bit word (8 digits). -/
def hexWord (x : Nat) : List Char :=
  [hexDigit ((x >>> 28) &&& 15), hexDigit ((x >>> 24) &&& 15), hexDigit ((x >>> 20) &&& 15),
   hexDigit ((x >>> 16) &&& 15), hexDigit ((x >>> 12) &&& 15), hexDigit ((x >>> 8) &&& 15),
   hexDigit ((x >>> 4) &&& 15), hexDigit (x &&& 15)]

/-- UTF-8 bytes of one character, as in Python `str.encode("utf-8")`. -/
def utf8Bytes (c : Char) : List Nat :=
  let n := c.toNat
  if n < 0x80 then [n]
  else if n < 0x800 then [0xC0 ||| (n >>> 6), 0x80 ||| (n &&& 0x3F)]
  else if n < 0x10000 then
    [0xE0 ||| (n >>> 12), 0x80 ||| ((n >>> 6) &&& 0x3F), 0x80 ||| (n &&& 0x3F)]
  else
    [0xF0 ||| (n >>> 18), 0x80 ||| ((n >>> 12) &&& 0x3F), 0x80 ||| ((n >>> 6) &&& 0x3F),
     0x80 ||| (n &&& 0x3F)]

/-- UTF-8 bytes of a string. -/
def strBytes (s : String) : List Nat := (s.data.map utf8Bytes).flatten

/-- Models `hashlib.sha256(s.encode("utf-8")).hexdigest()`. -/
def sha256hex (s : String) : String :=
  ⟨((sha256Words (strBytes s)).map hexWord).flatten⟩

/-! ## Python values and dictionaries

The raw records and normalized Articles of `util.py` are Python dicts whose
values (at the keys the core ever touches) are strings, `None`, or — for the
`source_detected_mf` annotation attached in `app.py` — lists of strings.
We model a dict as an insertion-ordered association list. -/

/-- A Python value as it occurs in the records of this pipeline. -/
inductive PyVal where
  | none : PyVal
  | str : String → PyVal
  | list : List String → PyVal
deriving DecidableEq, Repr

/-- Python truthiness of a `PyVal` (`None`, `""`, `[]` are falsy). -/
def PyVal.truthy : PyVal → Bool
  | .none => false
  | .str s => !(s == "")
  | .list l => !l.isEmpty

/-- Python `x or y`: `x` if truthy, else `y`. -/
def pyOr (x y : PyVal) : PyVal := if x.truthy then x else y

/-- A Python dict with string keys, as an insertion-ordered association list. -/
abbrev Rec' : Type := List (String × PyVal)

/-- Association-list lookup: the value of the first entry at key `k`. -/
def lookupA {κ β : Type} [BEq κ] : List (κ × β) → κ → Option β
  | [], _ => Option.none
  | p :: t, k => if p.1 == k then some p.2 else lookupA t k

/-- `d[k] = v` on an association list: update the first entry at `k` in
place, or append a new entry (Python dict insertion-order semantics). -/
def setA {κ β : Type} [BEq κ] : List (κ × β) → κ → β → List (κ × β)
  | [], k, v => [(k, v)]
  | p :: t, k, v => if p.1 == k then (k, v) :: t else p :: setA t k v

/-- `d.get(k)`: first value at key `k`, `None` when the key is absent. -/
def pyGet (r : Rec') (k : String) : PyVal :=
  match lookupA r k with
  | some v => v
  | Option.none => .none

/-- `d.get(k, default)`: value at `k`, or the default when the key is absent. -/
def pyGetD (r : Rec') (k : String) (d : PyVal) : PyVal :=
  match lookupA r k with
  | some v => v
  | Option.none => d

/-- The keys of a dict, in order. -/
def keysOf {κ β : Type} (m : List (κ × β)) : List κ := m.map (fun p => p.1)

/-- Extract the string of a `PyVal`; a non-string raises `TypeError` when
Python applies a string operation to it (slicing-plus-concat, `+`, `join`). -/
def asStr : PyVal → Except String String
  | .str s => .ok s
  | _ => .error "TypeError"

/-- Python `s[:n]` on a string: the first `n` characters. -/
def pySlice (s : String) (n : Nat) : String := ⟨s.data.take n⟩

/-- Python `str.lower()` (ASCII case folding, as exercised by this pipeline). -/
def strLower (s : String) : String := ⟨s.data.map Char.toLower⟩

/-- Python `len` on the result of `...get("content","") or ""`; that value is
a string or a (truthy) list, never `None`, so the `None` branch is unreachable. -/
def pyLenV : PyVal → Nat
  | .str s => s.length
  | .list l => l.length
  | .none => 0

/-! ## `util.py`: `normalize_article`

Each `res*` definition is one assignment line of `normalize_article`. -/

/-- `out["title"] = a.get("title") or a.get("headline") or ""`. -/
def resTitle (a : Rec') : PyVal := pyOr (pyOr (pyGet a "title") (pyGet a "headline")) (.str "")

/-- `out["description"] = a.get("description") or ""`. -/
def resDesc (a : Rec') : PyVal := pyOr (pyGet a "description") (.str "")

/-- `out["content"] = a.get("content") or a.get("snippet") or out["description"]`. -/
def resContent (a : Rec') : PyVal :=
  pyOr (pyOr (pyGet a "content") (pyGet a "snippet")) (resDesc a)

/-- `out["source_url"] = a.get("url") or a.get("link") or ""`. -/
def resUrl (a : Rec') : PyVal := pyOr (pyOr (pyGet a "url") (pyGet a "link")) (.str "")

/-- `out["published"] = a.get("published") or a.get("publishedAt") or utcnow().isoformat()`. -/
def resPub (a : Rec') (nowIso : String) : PyVal :=
  pyOr (pyOr (pyGet a "published") (pyGet a "publishedAt")) (.str nowIso)

/-- `out["source"] = a.get("source") or source or ""`. -/
def resSource (a : Rec') (source : PyVal) : PyVal :=
  pyOr (pyOr (pyGet a "source") source) (.str "")

/-- `normalize_article(a, source)` from `util.py`.  `nowIso` stands for the
`datetime.utcnow().isoformat()` read; `source` is the caller's argument
(Python default `None` is `PyVal.none`).  The output dict lists its keys in
the source's insertion order.  A Python `TypeError` (string operation on a
list value) is the `Except.error` case. -/
def normalize_article (a : Rec') (source : PyVal) (nowIso : String) : Except String Rec' := do
  let summary ←
    if (resDesc a).truthy then do
      let d ← asStr (resDesc a)
      pure (pySlice d 300 ++ "...")
    else do
      let c ← asStr (resContent a)
      pure (pySlice c 300 ++ "...")
  let t ← asStr (pyOr (resTitle a) (.str ""))
  let u ← asStr (pyOr (resUrl a) (.str ""))
  let id := sha256hex (t ++ u)
  pure [("title", resTitle a), ("description", resDesc a), ("content", resContent a),
        ("source_url", resUrl a), ("published", resPub a nowIso),
        ("source", resSource a source), ("summary", .str summary), ("id", .str id)]

/-! ## `util.py`: `dedupe_articles` -/

/-- `len(record.get("content","") or "")`: the content length compared by
the dedup collision rule (characters for a string value). -/
def contentLenR (r : Rec') : Nat := pyLenV (pyOr (pyGetD r "content" (.str "")) (.str ""))

/-- The loop of `dedupe_articles`, threading the `seen` dict (keyed by the
recomputed `id`).  `if not existing:` distinguishes `None` (key absent) from
a retained record; records produced by `normalize_article` are non-empty
dicts, hence truthy. -/
def dedupeGo (nowIso : String) (seen : List (PyVal × Rec')) :
    List Rec' → Except String (List (PyVal × Rec'))
  | [] => pure seen
  | a :: rest => do
      let norm ← normalize_article a (pyGet a "source") nowIso
      let key := pyGet norm "id"
      match lookupA seen key with
      | Option.none => dedupeGo nowIso (setA seen key norm) rest
      | some existing =>
          if contentLenR existing < contentLenR norm then
            dedupeGo nowIso (setA seen key norm) rest
          else dedupeGo nowIso seen rest

/-- `dedupe_articles(articles)` from `util.py`: re-normalize every input with
`source=a.get("source")`, key by the recomputed `id`, keep the first record
per id unless a later one has strictly longer content; return
`list(seen.values())`. -/
def dedupe_articles (articles : List Rec') (nowIso : String) : Except String (List Rec') := do
  let seen ← dedupeGo nowIso [] articles
  pure (seen.map (fun p => p.2))

/-! ## `util.py`: `detect_mutual_fund_mentions` -/

/-- `mf.lower() in text`: substring containment on the character lists. -/
def subStr (needle hay : String) : Bool := decide (needle.data <:+: hay.data)

/-- `detect_mutual_fund_mentions(article, mf_list)` from `util.py`:
lowercased space-joined `title`/`description`/`content` haystack, substring
filter, then `sorted(list(set(found)))`. -/
def detect_mutual_fund_mentions (article : Rec') (mf_list : List String) :
    Except String (List String) := do
  let t ← asStr (pyGetD article "title" (.str ""))
  let d ← asStr (pyGetD article "description" (.str ""))
  let c ← asStr (pyGetD article "content" (.str ""))
  let text := strLower (t ++ " " ++ d ++ " " ++ c)
  let found := mf_list.filter (fun mf => subStr (strLower mf) text)
  pure (List.insertionSort (fun x y => x ≤ y) found.dedup)

/-! ## `app.py`: the fetch-session pipeline (lines 58–81) -/

/-- One record's path through the fetch loop of `app.py`:
`a_norm = normalize_article(a, source=label)`, then
`a_norm["source_detected_mf"] = detect_mutual_fund_mentions(a_norm, mf_list)`. -/
def pipelineArticle (r : Rec') (label : String) (mfList : List String) (nowIso : String) :
    Except String Rec' := do
  let n ← normalize_article r (.str label) nowIso
  let ms ← detect_mutual_fund_mentions n mfList
  pure (setA n "source_detected_mf" (.list ms))

/-- The fetch session of `app.py`: annotate each fetched record, then
`combined = dedupe_articles(all_articles)`. -/
def sessionPipeline (rs : List Rec') (label : String) (mfList : List String) (nowIso : String) :
    Except String (List Rec') := do
  let annotated ← rs.mapM (fun r => pipelineArticle r label mfList nowIso)
  dedupe_articles annotated nowIso

/-! ## Specification-side definitions

Total companions to the `Except`-valued code functions (they agree on
records whose text-bearing values are strings or `None`), and reference
functions used to state the claims. -/

/-- The string in a `PyVal`, empty for non-strings (used only in statements
and in total companions applied where the value is provably a string). -/
def strVal : PyVal → String
  | .str s => s
  | _ => ""

/-- `True` unless the value is a Python list. -/
def isStrOrNone : PyVal → Bool
  | .list _ => false
  | _ => true

/-- The keys whose values flow into string operations in `normalize_article`. -/
def textKeys : List String := ["title", "headline", "description", "content", "snippet", "url", "link"]

/-- A record is textual when no string-consuming key holds a Python list;
on such records `normalize_article` raises no `TypeError`. -/
def textual (a : Rec') : Bool := textKeys.all (fun k => isStrOrNone (pyGet a k))

/-- The summary string computed by `normalize_article` (total companion). -/
def summaryT (a : Rec') : String :=
  if (resDesc a).truthy then pySlice (strVal (resDesc a)) 300 ++ "..."
  else pySlice (strVal (resContent a)) 300 ++ "..."

/-- The id computed by `normalize_article` (total companion):
`sha256((out["title"] or "") + (out["source_url"] or ""))`. -/
def idT (a : Rec') : String :=
  sha256hex (strVal (pyOr (resTitle a) (.str "")) ++ strVal (pyOr (resUrl a) (.str "")))

/-- Total companion of `normalize_article`; agrees with it on textual records. -/
def normT (a : Rec') (source : PyVal) (nowIso : String) : Rec' :=
  [("title", resTitle a), ("description", resDesc a), ("content", resContent a),
   ("source_url", resUrl a), ("published", resPub a nowIso),
   ("source", resSource a source), ("summary", .str (summaryT a)), ("id", .str (idT a))]

/-- The normalization `dedupe_articles` applies to each input:
`normalize_article(a, source=a.get("source"))` (total companion). -/
def normD (nowIso : String) (a : Rec') : Rec' := normT a (pyGet a "source") nowIso

/-- One step of the dedup loop on the `seen` dict (total companion). -/
def stepT (nowIso : String) (seen : List (PyVal × Rec')) (a : Rec') : List (PyVal × Rec') :=
  let norm := normD nowIso a
  let key := pyGet norm "id"
  match lookupA seen key with
  | Option.none => setA seen key norm
  | some existing =>
      if contentLenR existing < contentLenR norm then setA seen key norm else seen

/-- The dedup loop over all inputs (total companion of `dedupeGo`). -/
def dedupeGoT (nowIso : String) (seen : List (PyVal × Rec')) : List Rec' → List (PyVal × Rec')
  | [] => seen
  | a :: rest => dedupeGoT nowIso (stepT nowIso seen a) rest

/-- Reference collision rule, written from the claim: a record whose
(re-normalized) id is `k` becomes the retained record if none is retained
yet, or replaces the currently retained one exactly when its content is
strictly longer; with equal lengths the retained record is kept. -/
def stepO (nowIso : String) (k : PyVal) (cur : Option Rec') (a : Rec') : Option Rec' :=
  let n := normD nowIso a
  if pyGet n "id" == k then
    match cur with
    | Option.none => some n
    | some c => if contentLenR c < contentLenR n then some n else some c
  else cur

/-- Fold of the reference collision rule over the input sequence. -/
def retainedFrom (nowIso : String) (k : PyVal) (cur : Option Rec') : List Rec' → Option Rec'
  | [] => cur
  | a :: rest => retainedFrom nowIso k (stepO nowIso k cur a) rest

/-- The record the claim says `dedupe_articles` retains for id `k`:
first-seen record with that id, replaced only by strictly longer content. -/
def retainedFor (nowIso : String) (k : PyVal) (arts : List Rec') : Option Rec' :=
  retainedFrom nowIso k Option.none arts

/-- The value of an `Except`-valued record computation that did not raise
(used to state concrete-input theorems). -/
def okOr (e : Except String Rec') : Rec' := e.toOption.getD []

/-- `summary` as claim C4 words it: the first 300 characters of the
description (or of the content when the description is empty), with an
ellipsis marker exactly when truncation happened; an ellipsis alone when
both are empty. -/
def claimSummary (description content : String) : String :=
  if description ≠ "" then
    (if 300 < description.length then pySlice description 300 ++ "..." else description)
  else if content ≠ "" then
    (if 300 < content.length then pySlice content 300 ++ "..." else content)
  else "..."

/-- The haystack predicate of the Mention Detector: the candidate occurs
case-insensitively in the separator-joined title/description/content. -/
def mentioned (t d c mf : String) : Prop :=
  (strLower mf).data <:+: (strLower (t ++ " " ++ d ++ " " ++ c)).data

instance (t d c mf : String) : Decidable (mentioned t d c mf) := by
  unfold mentioned; infer_instance

/-! ### Concrete inputs exhibiting the two code defects -/

/-- A raw record with a title and a url. -/
def c1raw : Rec' := [("title", .str "t"), ("url", .str "u")]

/-- Its normalization at a fixed clock reading. -/
def c1norm : Rec' := okOr (normalize_article c1raw .none "NOW")

/-- The re-normalization that `dedupe_articles` applies to every input,
here applied to an already-normalized Article. -/
def c1renorm : Rec' := okOr (normalize_article c1norm (pyGet c1norm "source") "NOW")

/-- A raw record mentioning a configured firm name. -/
def c6raw : Rec' :=
  [("title", .str "Fund X gains"), ("url", .str "http://a/1"),
   ("content", .str "SBI Mutual Fund announced results")]

/-- The annotated Article `app.py` builds before deduplication. -/
def c6annotated : Rec' := okOr (pipelineArticle c6raw "NewsAPI" ["SBI Mutual Fund"] "NOW")

/-- The session output after `dedupe_articles`. -/
def c6out : List Rec' :=
  (sessionPipeline [c6raw] "NewsAPI" ["SBI Mutual Fund"] "NOW").toOption.getD []

/-! ## Lemmas about Python values and `normalize_article` -/

/-- FIPS 180-4 test vector: the SHA-256 of the empty string. -/
theorem sha256hex_empty_vector :
    sha256hex "" = "e3b0c44298fc1c149afbf4c8996fb92427ae41e4649b934ca495991b7852b855" := by
  decide

/-- FIPS 180-4 test vector: the SHA-256 of `"abc"`. -/
theorem sha256hex_abc_vector :
    sha256hex "abc" = "ba7816bf8f01cfea414140de5dae2223b00361a396177a9cb410ff61f20015ad" := by
  decide

theorem pyOr_pos {x : PyVal} (y : PyVal) (h : x.truthy = true) : pyOr x y = x := by
  simp [pyOr, h]

theorem pyOr_neg {x : PyVal} (y : PyVal) (h : x.truthy = false) : pyOr x y = y := by
  simp [pyOr, h]

theorem isStrOrNone_pyOr {x y : PyVal} (hx : isStrOrNone x = true)
    (hy : isStrOrNone y = true) : isStrOrNone (pyOr x y) = true := by
  unfold pyOr; split <;> assumption

theorem pyOr_str_shape {x y : PyVal} (hx : isStrOrNone x = true) {s : String}
    (hy : y = .str s) : ∃ u, pyOr x y = .str u := by
  subst hy
  cases x with
  | none => exact ⟨s, rfl⟩
  | str t =>
      unfold pyOr; split
      · exact ⟨t, rfl⟩
      · exact ⟨s, rfl⟩
  | list l => simp [isStrOrNone] at hx

theorem asStr_of_shape {x : PyVal} {s : String} (h : x = .str s) :
    asStr x = .ok (strVal x) := by subst h; rfl

/-- Unpack `textual` into its seven per-key facts. -/
theorem textual_spec {a : Rec'} (h : textual a = true) :
    isStrOrNone (pyGet a "title") = true ∧ isStrOrNone (pyGet a "headline") = true ∧
    isStrOrNone (pyGet a "description") = true ∧ isStrOrNone (pyGet a "content") = true ∧
    isStrOrNone (pyGet a "snippet") = true ∧ isStrOrNone (pyGet a "url") = true ∧
    isStrOrNone (pyGet a "link") = true := by
  simp [textual, textKeys, List.all_cons] at h
  exact ⟨h.1, h.2.1, h.2.2.1, h.2.2.2.1, h.2.2.2.2.1, h.2.2.2.2.2.1, h.2.2.2.2.2.2⟩

theorem resDesc_shape {a : Rec'} (h : textual a = true) : ∃ s, resDesc a = .str s := by
  obtain ⟨-, -, hd, -⟩ := textual_spec h
  exact pyOr_str_shape hd rfl

theorem resContent_shape {a : Rec'} (h : textual a = true) : ∃ s, resContent a = .str s := by
  obtain ⟨-, -, -, hc, hsn, -⟩ := textual_spec h
  obtain ⟨s, hs⟩ := resDesc_shape h
  exact pyOr_str_shape (isStrOrNone_pyOr hc hsn) hs

theorem resTitle_shape {a : Rec'} (h : textual a = true) : ∃ s, resTitle a = .str s := by
  obtain ⟨ht, hh, -⟩ := textual_spec h
  exact pyOr_str_shape (isStrOrNone_pyOr ht hh) rfl

theorem resUrl_shape {a : Rec'} (h : textual a = true) : ∃ s, resUrl a = .str s := by
  obtain ⟨-, -, -, -, -, hu, hl⟩ := textual_spec h
  exact pyOr_str_shape (isStrOrNone_pyOr hu hl) rfl

theorem str_shape_pyOr_str {x : PyVal} {s : String} (h : x = .str s) :
    ∃ u, pyOr x (.str "") = .str u := by
  subst h
  unfold pyOr; split
  · exact ⟨s, rfl⟩
  · exact ⟨"", rfl⟩

theorem truthy_str_shape {x : PyVal} (h1 : isStrOrNone x = true) (h2 : x.truthy = true) :
    ∃ s, x = .str s ∧ s ≠ "" := by
  cases x with
  | none => simp [PyVal.truthy] at h2
  | str s => exact ⟨s, rfl, by simpa [PyVal.truthy] using h2⟩
  | list l => simp [isStrOrNone] at h1

@[simp] theorem pyGet_normT_title (a : Rec') (src : PyVal) (n : String) :
    pyGet (normT a src n) "title" = resTitle a := rfl

@[simp] theorem pyGet_normT_description (a : Rec') (src : PyVal) (n : String) :
    pyGet (normT a src n) "description" = resDesc a := rfl

@[simp] theorem pyGet_normT_content (a : Rec') (src : PyVal) (n : String) :
    pyGet (normT a src n) "content" = resContent a := rfl

@[simp] theorem pyGet_normT_source_url (a : Rec') (src : PyVal) (n : String) :
    pyGet (normT a src n) "source_url" = resUrl a := rfl

@[simp] theorem pyGet_normT_published (a : Rec') (src : PyVal) (n : String) :
    pyGet (normT a src n) "published" = resPub a n := rfl

@[simp] theorem pyGet_normT_source (a : Rec') (src : PyVal) (n : String) :
    pyGet (normT a src n) "source" = resSource a src := rfl

@[simp] theorem pyGet_normT_summary (a : Rec') (src : PyVal) (n : String) :
    pyGet (normT a src n) "summary" = .str (summaryT a) := rfl

@[simp] theorem pyGet_normT_id (a : Rec') (src : PyVal) (n : String) :
    pyGet (normT a src n) "id" = .str (idT a) := rfl

@[simp] theorem keysOf_normT (a : Rec') (src : PyVal) (n : String) :
    keysOf (normT a src n) =
      ["title", "description", "content", "source_url", "published", "source", "summary", "id"] := rfl

/-- On a textual record, `normalize_article` raises nothing and computes
its total companion `normT`. -/
theorem norm_ok (a : Rec') (source : PyVal) (nowIso : String) (h : textual a = true) :
    normalize_article a source nowIso = .ok (normT a source nowIso) := by
  obtain ⟨ds, hds⟩ := resDesc_shape h
  obtain ⟨cs, hcs⟩ := resContent_shape h
  obtain ⟨ts, hts⟩ := str_shape_pyOr_str (resTitle_shape h).choose_spec
  obtain ⟨us, hus⟩ := str_shape_pyOr_str (resUrl_shape h).choose_spec
  unfold normalize_article normT summaryT idT
  rw [asStr_of_shape hts, asStr_of_shape hus]
  by_cases htr : (resDesc a).truthy = true
  · rw [if_pos htr, if_pos htr, asStr_of_shape hds]
    simp only [hds, hts, hus, strVal]
    rfl
  · rw [if_neg (by simp [htr]), if_neg (by simp [htr]), asStr_of_shape hcs]
    simp only [hcs, hts, hus, strVal]
    rfl

/-! ## Claim C9 — totality of the Normalizer -/

/-- C9 (confirmed): on every textual record shape, `normalize_article`
produces exactly one Article without raising (the `Except.error` branch is
not taken), and missing `title`/`headline`, `description`, `url`/`link`
degrade to empty-string defaults, while missing `published` falls back to
the current clock reading and missing `source` to the caller's label
(empty string when that is `None` too). -/
theorem c9_normalizer_total (a : Rec') (source : PyVal) (nowIso : String)
    (h : textual a = true) :
    normalize_article a source nowIso = .ok (normT a source nowIso) ∧
    (pyGet a "title" = .none → pyGet a "headline" = .none →
      pyGet (normT a source nowIso) "title" = .str "") ∧
    (pyGet a "description" = .none → pyGet (normT a source nowIso) "description" = .str "") ∧
    (pyGet a "url" = .none → pyGet a "link" = .none →
      pyGet (normT a source nowIso) "source_url" = .str "") ∧
    (pyGet a "published" = .none → pyGet a "publishedAt" = .none →
      pyGet (normT a source nowIso) "published" = .str nowIso) ∧
    (pyGet a "source" = .none → source = .none →
      pyGet (normT a source nowIso) "source" = .str "") := by
  refine ⟨norm_ok a source nowIso h, ?_, ?_, ?_, ?_, ?_⟩
  · intro h1 h2; simp [resTitle, h1, h2, pyOr, PyVal.truthy]
  · intro h1; simp [resDesc, h1, pyOr, PyVal.truthy]
  · intro h1 h2; simp [resUrl, h1, h2, pyOr, PyVal.truthy]
  · intro h1 h2; simp [resPub, h1, h2, pyOr, PyVal.truthy]
  · intro h1 h2; simp [resSource, h1, h2, pyOr, PyVal.truthy]

/-- Witness for C9 at a concrete record with every field missing. -/
theorem c9_normalizer_total_witness :
    normalize_article [("extra", PyVal.str "x")] .none "NOW" =
        .ok (normT [("extra", PyVal.str "x")] .none "NOW") ∧
    (pyGet [("extra", PyVal.str "x")] "title" = .none →
      pyGet [("extra", PyVal.str "x")] "headline" = .none →
      pyGet (normT [("extra", PyVal.str "x")] .none "NOW") "title" = .str "") ∧
    (pyGet [("extra", PyVal.str "x")] "description" = .none →
      pyGet (normT [("extra", PyVal.str "x")] .none "NOW") "description" = .str "") ∧
    (pyGet [("extra", PyVal.str "x")] "url" = .none →
      pyGet [("extra", PyVal.str "x")] "link" = .none →
      pyGet (normT [("extra", PyVal.str "x")] .none "NOW") "source_url" = .str "") ∧
    (pyGet [("extra", PyVal.str "x")] "published" = .none →
      pyGet [("extra", PyVal.str "x")] "publishedAt" = .none →
      pyGet (normT [("extra", PyVal.str "x")] .none "NOW") "published" = .str "NOW") ∧
    (pyGet [("extra", PyVal.str "x")] "source" = .none → PyVal.none = PyVal.none →
      pyGet (normT [("extra", PyVal.str "x")] .none "NOW") "source" = .str "") :=
  c9_normalizer_total [("extra", PyVal.str "x")] .none "NOW" (by decide)

/-! ## Claim C10 — purity / determinism of the Normalizer -/

/-- C10 (counterexample): `normalize_article` is not a function of the raw
record and source label alone — on a record with no published timestamp,
two runs at different clock readings differ (in `published`). -/
theorem c10_counterexample :
    normalize_article [] .none "2024-01-01T00:00:00" ≠
      normalize_article [] .none "2024-01-02T00:00:00" := by
  intro h
  have h2 := congrArg okOr h
  revert h2
  decide

/-- C10 (amended): `normalize_article` is a pure function of the raw
record, the source label and the clock reading; whenever the record itself
supplies a truthy `published` or `publishedAt`, the output does not depend
on the clock at all. -/
theorem c10_published_only_clock_dependence (a : Rec') (source : PyVal) (n₁ n₂ : String)
    (h : (pyOr (pyGet a "published") (pyGet a "publishedAt")).truthy = true) :
    normalize_article a source n₁ = normalize_article a source n₂ := by
  have hp : ∀ n : String, resPub a n = pyOr (pyGet a "published") (pyGet a "publishedAt") := by
    intro n; unfold resPub; exact pyOr_pos _ h
  unfold normalize_article
  rw [hp n₁, hp n₂]

/-- Witness for C10's amended theorem at a concrete record carrying its
own published timestamp. -/
theorem c10_witness :
    normalize_article [("published", PyVal.str "2020-01-01T00:00:00")] .none "A" =
      normalize_article [("published", PyVal.str "2020-01-01T00:00:00")] .none "B" :=
  c10_published_only_clock_dependence _ .none "A" "B" (by decide)

/-! ## Claim C7 — content resolution order -/

/-- C7 (confirmed): `content` resolves raw `content`, then raw `snippet`,
then the Article's `description`; hence it is a non-empty string whenever
the raw description or the raw snippet is non-empty. -/
theorem c7_content_resolution (a : Rec') (source : PyVal) (nowIso : String)
    (h : textual a = true) :
    normalize_article a source nowIso = .ok (normT a source nowIso) ∧
    ((pyGet a "content").truthy = true →
      pyGet (normT a source nowIso) "content" = pyGet a "content") ∧
    ((pyGet a "content").truthy = false → (pyGet a "snippet").truthy = true →
      pyGet (normT a source nowIso) "content" = pyGet a "snippet") ∧
    ((pyGet a "content").truthy = false → (pyGet a "snippet").truthy = false →
      pyGet (normT a source nowIso) "content" = resDesc a) ∧
    ((pyGet a "description").truthy = true ∨ (pyGet a "snippet").truthy = true →
      ∃ s, pyGet (normT a source nowIso) "content" = .str s ∧ s ≠ "") := by
  obtain ⟨-, -, hdSN, hcSN, hsnSN, -⟩ := textual_spec h
  refine ⟨norm_ok a source nowIso h, ?_, ?_, ?_, ?_⟩
  · intro h1
    simp only [pyGet_normT_content, resContent]
    rw [pyOr_pos _ (by rw [pyOr_pos _ h1]; exact h1), pyOr_pos _ h1]
  · intro h1 h2
    simp only [pyGet_normT_content, resContent]
    rw [pyOr_neg _ h1, pyOr_pos _ h2]
  · intro h1 h2
    simp only [pyGet_normT_content, resContent]
    rw [pyOr_neg _ h1, pyOr_neg _ h2]
  · intro h1
    simp only [pyGet_normT_content]
    by_cases hx : (pyOr (pyGet a "content") (pyGet a "snippet")).truthy = true
    · have := truthy_str_shape (isStrOrNone_pyOr hcSN hsnSN) hx
      obtain ⟨s, hs, hne⟩ := this
      exact ⟨s, by rw [resContent, pyOr_pos _ hx, hs], hne⟩
    · have hd : (pyGet a "description").truthy = true := by
        rcases h1 with h1 | h1
        · exact h1
        · exfalso
          apply hx
          rcases Bool.eq_false_or_eq_true (pyGet a "content").truthy with hc | hc
          · rw [pyOr_pos _ hc]; exact hc
          · rw [pyOr_neg _ hc]; exact h1
      obtain ⟨s, hs, hne⟩ := truthy_str_shape hdSN hd
      refine ⟨s, ?_, hne⟩
      rw [resContent, pyOr_neg _ (by simpa using hx), resDesc, pyOr_pos _ hd, hs]

/-- Witness for C7 at a concrete record with only a snippet. -/
theorem c7_witness :
    normalize_article [("snippet", PyVal.str "snip")] .none "NOW" =
        .ok (normT [("snippet", PyVal.str "snip")] .none "NOW") ∧
    ((pyGet [("snippet", PyVal.str "snip")] "content").truthy = true →
      pyGet (normT [("snippet", PyVal.str "snip")] .none "NOW") "content" =
        pyGet [("snippet", PyVal.str "snip")] "content") ∧
    ((pyGet [("snippet", PyVal.str "snip")] "content").truthy = false →
      (pyGet [("snippet", PyVal.str "snip")] "snippet").truthy = true →
      pyGet (normT [("snippet", PyVal.str "snip")] .none "NOW") "content" =
        pyGet [("snippet", PyVal.str "snip")] "snippet") ∧
    ((pyGet [("snippet", PyVal.str "snip")] "content").truthy = false →
      (pyGet [("snippet", PyVal.str "snip")] "snippet").truthy = false →
      pyGet (normT [("snippet", PyVal.str "snip")] .none "NOW") "content" =
        resDesc [("snippet", PyVal.str "snip")]) ∧
    ((pyGet [("snippet", PyVal.str "snip")] "description").truthy = true ∨
      (pyGet [("snippet", PyVal.str "snip")] "snippet").truthy = true →
      ∃ s, pyGet (normT [("snippet", PyVal.str "snip")] .none "NOW") "content" = .str s ∧
        s ≠ "") :=
  c7_content_resolution [("snippet", PyVal.str "snip")] .none "NOW" (by decide)

/-! ## Claim C4 — summary construction -/

theorem pySlice_length_le (s : String) (n : Nat) : (pySlice s n).length ≤ n := by
  have : (pySlice s n).length = (s.data.take n).length := rfl
  rw [this, List.length_take]
  exact Nat.min_le_left _ _

theorem summaryT_length (a : Rec') : (summaryT a).length ≤ 303 := by
  have hdots : ("..." : String).length = 3 := rfl
  unfold summaryT
  split <;>
    · rw [String.length_append, hdots]
      have := pySlice_length_le (strVal (resDesc a)) 300
      have := pySlice_length_le (strVal (resContent a)) 300
      omega

/-- C4 (amended): the summary is the first 300 characters of the
description (or of the content when the description is empty) with an
ellipsis marker appended in every case, truncated or not; its length is at
most 303 characters, and when both description and content are empty it is
the ellipsis marker alone. -/
theorem c4_summary_spec (a : Rec') (source : PyVal) (nowIso : String)
    (h : textual a = true) :
    normalize_article a source nowIso = .ok (normT a source nowIso) ∧
    (∃ d c, resDesc a = .str d ∧ resContent a = .str c ∧
      pyGet (normT a source nowIso) "summary" =
        .str ((if d = "" then pySlice c 300 else pySlice d 300) ++ "...") ∧
      (d = "" → c = "" → pyGet (normT a source nowIso) "summary" = .str "...")) ∧
    (summaryT a).length ≤ 303 := by
  obtain ⟨d, hd⟩ := resDesc_shape h
  obtain ⟨c, hc⟩ := resContent_shape h
  refine ⟨norm_ok a source nowIso h, ⟨d, c, hd, hc, ?_, ?_⟩, summaryT_length a⟩
  · simp only [pyGet_normT_summary]
    congr 1
    unfold summaryT
    rw [hd]
    by_cases hde : d = ""
    · subst hde
      simp [PyVal.truthy, strVal, hc]
    · simp [PyVal.truthy, hde, strVal]
  · intro h1 h2
    simp only [pyGet_normT_summary]
    congr 1
    unfold summaryT
    rw [hd, hc, h1, h2]
    simp [PyVal.truthy, strVal]
    rfl

/-- Witness for C4's amended theorem on a record with a short description. -/
theorem c4_summary_spec_witness :
    normalize_article [("description", PyVal.str "hello")] .none "NOW" =
        .ok (normT [("description", PyVal.str "hello")] .none "NOW") ∧
    (∃ d c, resDesc [("description", PyVal.str "hello")] = .str d ∧
      resContent [("description", PyVal.str "hello")] = .str c ∧
      pyGet (normT [("description", PyVal.str "hello")] .none "NOW") "summary" =
        .str ((if d = "" then pySlice c 300 else pySlice d 300) ++ "...") ∧
      (d = "" → c = "" →
        pyGet (normT [("description", PyVal.str "hello")] .none "NOW") "summary" =
          .str "...")) ∧
    (summaryT [("description", PyVal.str "hello")]).length ≤ 303 :=
  c4_summary_spec [("description", PyVal.str "hello")] .none "NOW" (by decide)

/-- C4 (counterexample): for description `"abc"` (not truncated) the code
still appends the ellipsis marker, so the summary differs from the claim's
`claimSummary` reading, which suffixes the marker only when truncated. -/
theorem c4_counterexample :
    pyGet (okOr (normalize_article [("description", PyVal.str "abc")] .none "N"))
        "description" = .str "abc" ∧
    pyGet (okOr (normalize_article [("description", PyVal.str "abc")] .none "N"))
        "content" = .str "abc" ∧
    pyGet (okOr (normalize_article [("description", PyVal.str "abc")] .none "N"))
        "summary" ≠ .str (claimSummary "abc" "abc") := by
  decide

/-! ## Claim C3 — identity key computation -/

/-- C3 (amended): the Article's `id` is the lowercase-hex SHA-256 of the
resolved title concatenated with the resolved url, so it depends only on
the resolved `(title, source_url)` pair: two textual raw records whose
resolved title and resolved url agree normalize to the same `id`, whatever
else differs. -/
theorem c3_id_from_title_url (a₁ a₂ : Rec') (s₁ s₂ : PyVal) (n₁ n₂ : String)
    (h₁ : textual a₁ = true) (h₂ : textual a₂ = true)
    (ht : resTitle a₁ = resTitle a₂) (hu : resUrl a₁ = resUrl a₂) :
    ∃ t u, pyOr (resTitle a₁) (.str "") = .str t ∧ pyOr (resUrl a₁) (.str "") = .str u ∧
      normalize_article a₁ s₁ n₁ = .ok (normT a₁ s₁ n₁) ∧
      normalize_article a₂ s₂ n₂ = .ok (normT a₂ s₂ n₂) ∧
      pyGet (normT a₁ s₁ n₁) "id" = .str (sha256hex (t ++ u)) ∧
      pyGet (normT a₂ s₂ n₂) "id" = pyGet (normT a₁ s₁ n₁) "id" := by
  obtain ⟨t, htt⟩ := str_shape_pyOr_str (resTitle_shape h₁).choose_spec
  obtain ⟨u, huu⟩ := str_shape_pyOr_str (resUrl_shape h₁).choose_spec
  refine ⟨t, u, htt, huu, norm_ok a₁ s₁ n₁ h₁, norm_ok a₂ s₂ n₂ h₂, ?_, ?_⟩
  · simp only [pyGet_normT_id]
    congr 1
    unfold idT
    rw [htt, huu]
    rfl
  · simp only [pyGet_normT_id]
    congr 1
    unfold idT
    rw [ht, hu]

/-- Witness for C3's amended theorem: one record uses `url`, the other
`link`, with different extra fields; the ids agree. -/
theorem c3_id_from_title_url_witness :
    ∃ t u,
      pyOr (resTitle [("title", PyVal.str "T"), ("url", PyVal.str "U"),
        ("content", PyVal.str "body")]) (.str "") = .str t ∧
      pyOr (resUrl [("title", PyVal.str "T"), ("url", PyVal.str "U"),
        ("content", PyVal.str "body")]) (.str "") = .str u ∧
      normalize_article [("title", PyVal.str "T"), ("url", PyVal.str "U"),
          ("content", PyVal.str "body")] .none "N1" =
        .ok (normT [("title", PyVal.str "T"), ("url", PyVal.str "U"),
          ("content", PyVal.str "body")] .none "N1") ∧
      normalize_article [("title", PyVal.str "T"), ("link", PyVal.str "U"),
          ("published", PyVal.str "P")] (.str "lbl") "N2" =
        .ok (normT [("title", PyVal.str "T"), ("link", PyVal.str "U"),
          ("published", PyVal.str "P")] (.str "lbl") "N2") ∧
      pyGet (normT [("title", PyVal.str "T"), ("url", PyVal.str "U"),
          ("content", PyVal.str "body")] .none "N1") "id" = .str (sha256hex (t ++ u)) ∧
      pyGet (normT [("title", PyVal.str "T"), ("link", PyVal.str "U"),
          ("published", PyVal.str "P")] (.str "lbl") "N2") "id" =
        pyGet (normT [("title", PyVal.str "T"), ("url", PyVal.str "U"),
          ("content", PyVal.str "body")] .none "N1") "id" :=
  c3_id_from_title_url _ _ .none (.str "lbl") "N1" "N2" (by decide) (by decide)
    (by decide) (by decide)

/-- C3 (counterexample): two raw records that agree on the raw `title`
field (absent in both) and on the raw `url` field, yet differ in
`headline`, normalize to different ids — `id` is not a function of the raw
title and url alone. -/
theorem c3_counterexample :
    pyGet [("headline", PyVal.str "A"), ("url", PyVal.str "u")] "title" =
      pyGet [("headline", PyVal.str "B"), ("url", PyVal.str "u")] "title" ∧
    pyGet [("headline", PyVal.str "A"), ("url", PyVal.str "u")] "url" =
      pyGet [("headline", PyVal.str "B"), ("url", PyVal.str "u")] "url" ∧
    pyGet (okOr (normalize_article [("headline", PyVal.str "A"), ("url", PyVal.str "u")]
        .none "N")) "id" ≠
      pyGet (okOr (normalize_article [("headline", PyVal.str "B"), ("url", PyVal.str "u")]
        .none "N")) "id" := by
  refine ⟨rfl, rfl, ?_⟩
  decide

/-! ## Claims C5 and C8 — the Mention Detector -/

/-- Running the detector on an Article whose three text fields are strings. -/
theorem detect_run (art : Rec') (ms : List String) {t d c : String}
    (ht : pyGetD art "title" (.str "") = .str t)
    (hd : pyGetD art "description" (.str "") = .str d)
    (hc : pyGetD art "content" (.str "") = .str c) :
    detect_mutual_fund_mentions art ms =
      .ok (List.insertionSort (fun x y => x ≤ y)
        (ms.filter (fun mf => subStr (strLower mf) (strLower (t ++ " " ++ d ++ " " ++ c)))).dedup) := by
  unfold detect_mutual_fund_mentions
  rw [ht, hd, hc]
  rfl

/-- C5 (confirmed): the detector returns exactly the candidates occurring
case-insensitively in the space-joined title/description/content, as a
duplicate-free lexicographically sorted list, independent of the candidate
list's order. -/
theorem c5_detect_spec (art : Rec') (mfs : List String) (t d c : String)
    (ht : pyGetD art "title" (.str "") = .str t)
    (hd : pyGetD art "description" (.str "") = .str d)
    (hc : pyGetD art "content" (.str "") = .str c) :
    ∃ res, detect_mutual_fund_mentions art mfs = .ok res ∧
      (∀ m, m ∈ res ↔ m ∈ mfs ∧ mentioned t d c m) ∧
      res.Nodup ∧ List.Sorted (fun x y => x < y) res ∧
      (∀ mfs', List.Perm mfs mfs' → detect_mutual_fund_mentions art mfs' = .ok res) := by
  have hmem : ∀ (ms : List String) (m : String),
      m ∈ List.insertionSort (fun x y => x ≤ y)
          (ms.filter (fun mf => subStr (strLower mf) (strLower (t ++ " " ++ d ++ " " ++ c)))).dedup ↔
        m ∈ ms ∧ mentioned t d c m := by
    intro ms m
    rw [(List.perm_insertionSort _ _).mem_iff, List.mem_dedup, List.mem_filter]
    simp [subStr, mentioned]
  have hnd : ∀ ms : List String,
      (List.insertionSort (fun x y => x ≤ y)
        (ms.filter (fun mf => subStr (strLower mf) (strLower (t ++ " " ++ d ++ " " ++ c)))).dedup).Nodup :=
    fun ms => ((List.perm_insertionSort _ _).nodup_iff).mpr (List.nodup_dedup _)
  have hsd : ∀ ms : List String,
      (List.insertionSort (fun x y => x ≤ y)
        (ms.filter (fun mf => subStr (strLower mf) (strLower (t ++ " " ++ d ++ " " ++ c)))).dedup).Sorted
        (fun x y => x ≤ y) :=
    fun ms => List.sorted_insertionSort _ _
  refine ⟨_, detect_run art mfs ht hd hc, hmem mfs, hnd mfs, (hsd mfs).lt_of_le (hnd mfs), ?_⟩
  intro mfs' hperm
  rw [detect_run art mfs' ht hd hc]
  have : List.insertionSort (fun x y => x ≤ y)
      (mfs'.filter (fun mf => subStr (strLower mf) (strLower (t ++ " " ++ d ++ " " ++ c)))).dedup =
    List.insertionSort (fun x y => x ≤ y)
      (mfs.filter (fun mf => subStr (strLower mf) (strLower (t ++ " " ++ d ++ " " ++ c)))).dedup := by
    refine List.eq_of_perm_of_sorted ((List.perm_ext_iff_of_nodup (hnd mfs') (hnd mfs)).mpr ?_)
      (hsd mfs') (hsd mfs)
    intro m
    rw [hmem mfs', hmem mfs, hperm.mem_iff]
  rw [this]

/-- Witness for C5 at a concrete article and candidate list with
duplicates, case differences and a non-match. -/
theorem c5_detect_spec_witness :
    ∃ res,
      detect_mutual_fund_mentions
          [("title", PyVal.str "b a hdfc amc says"), ("content", PyVal.str "axis")]
          ["HDFC AMC", "Axis", "zzz", "HDFC AMC", "B A"] = .ok res ∧
      (∀ m, m ∈ res ↔ m ∈ ["HDFC AMC", "Axis", "zzz", "HDFC AMC", "B A"] ∧
        mentioned "b a hdfc amc says" "" "axis" m) ∧
      res.Nodup ∧ List.Sorted (fun x y => x < y) res ∧
      (∀ mfs', List.Perm ["HDFC AMC", "Axis", "zzz", "HDFC AMC", "B A"] mfs' →
        detect_mutual_fund_mentions
          [("title", PyVal.str "b a hdfc amc says"), ("content", PyVal.str "axis")] mfs' =
          .ok res) :=
  c5_detect_spec [("title", PyVal.str "b a hdfc amc says"), ("content", PyVal.str "axis")]
    ["HDFC AMC", "Axis", "zzz", "HDFC AMC", "B A"] "b a hdfc amc says" "" "axis" rfl rfl rfl

/-- C8 (counterexample): on an Article whose text fields are all empty the
joined haystack is two spaces, so the whitespace-only candidate `" "` —
a non-empty candidate list — is matched and returned: the match list is
not empty for every non-empty candidate list. -/
theorem c8_counterexample :
    detect_mutual_fund_mentions
        [("title", PyVal.str ""), ("description", PyVal.str ""), ("content", PyVal.str "")]
        [" "] = .ok [" "] ∧
    ([" "] : List String) ≠ [] := by
  exact ⟨rfl, by decide⟩

/-- C8 (amended): the detector returns an empty list for the empty
candidate list; and on an Article whose `title`, `description`, `content`
are all empty strings it returns an empty list for every candidate list
whose names each contain a character that is not a space (even after
lowercasing) — whitespace-only names are the sole exception. -/
theorem c8_detect_empty (art : Rec') (t d c : String)
    (ht : pyGetD art "title" (.str "") = .str t)
    (hd : pyGetD art "description" (.str "") = .str d)
    (hc : pyGetD art "content" (.str "") = .str c) :
    detect_mutual_fund_mentions art [] = .ok [] ∧
    (t = "" → d = "" → c = "" →
      ∀ mfs : List String, (∀ m ∈ mfs, ∃ ch ∈ m.data, Char.toLower ch ≠ ' ') →
        detect_mutual_fund_mentions art mfs = .ok []) := by
  constructor
  · rw [detect_run art [] ht hd hc]
    rfl
  · intro h1 h2 h3 mfs hmfs
    subst h1; subst h2; subst h3
    rw [detect_run art mfs ht hd hc]
    have hfilter :
        mfs.filter (fun mf => subStr (strLower mf) (strLower ("" ++ " " ++ "" ++ " " ++ ""))) = [] := by
      refine List.filter_eq_nil_iff.mpr ?_
      intro m hm
      obtain ⟨ch, hch, hne⟩ := hmfs m hm
      simp only [subStr, decide_eq_true_eq]
      intro hinf
      have hchm : ch.toLower ∈ (strLower m).data := by
        simpa [strLower] using List.mem_map_of_mem Char.toLower hch
      have hsp : (strLower ("" ++ " " ++ "" ++ " " ++ "")).data = [' ', ' '] := by decide
      have hmem2 : ch.toLower ∈ [' ', ' '] := by
        rw [← hsp]
        exact hinf.subset hchm
      simp at hmem2
      exact hne hmem2
    rw [hfilter]
    rfl

/-- Witness for C8's amended theorem on the all-empty Article with an
ordinary candidate list. -/
theorem c8_detect_empty_witness :
    detect_mutual_fund_mentions
        [("title", PyVal.str ""), ("description", PyVal.str ""), ("content", PyVal.str "")]
        [] = .ok [] ∧
    ("" = "" → "" = "" → "" = "" →
      ∀ mfs : List String, (∀ m ∈ mfs, ∃ ch ∈ m.data, Char.toLower ch ≠ ' ') →
        detect_mutual_fund_mentions
          [("title", PyVal.str ""), ("description", PyVal.str ""), ("content", PyVal.str "")]
          mfs = .ok []) :=
  c8_detect_empty
    [("title", PyVal.str ""), ("description", PyVal.str ""), ("content", PyVal.str "")]
    "" "" "" rfl rfl rfl

/-! ## Association-list lemmas (for the dedup `seen` dict) -/

section AssocLemmas

variable {κ β : Type} [BEq κ] [LawfulBEq κ]

theorem lookupA_setA_self (m : List (κ × β)) (k : κ) (v : β) :
    lookupA (setA m k v) k = some v := by
  induction m with
  | nil => simp [setA, lookupA]
  | cons p t ih =>
      by_cases h : p.1 = k
      · simp [setA, lookupA, beq_iff_eq, h]
      · simp [setA, lookupA, beq_iff_eq, h, ih]

theorem lookupA_setA_ne (m : List (κ × β)) (k k' : κ) (v : β) (hne : k' ≠ k) :
    lookupA (setA m k v) k' = lookupA m k' := by
  have hkk : ¬(k = k') := fun hh => hne hh.symm
  induction m with
  | nil => simp [setA, lookupA, beq_iff_eq, hkk]
  | cons p t ih =>
      by_cases h : p.1 = k
      · have hp : ¬(p.1 = k') := by rw [h]; exact hkk
        simp [setA, lookupA, beq_iff_eq, h, hkk, hp]
      · by_cases h2 : p.1 = k'
        · simp [setA, lookupA, beq_iff_eq, h, h2, hne]
        · simp [setA, lookupA, beq_iff_eq, h, h2, ih]

theorem keysOf_setA_mem (m : List (κ × β)) (k : κ) (v : β) {w : β}
    (h : lookupA m k = some w) : keysOf (setA m k v) = keysOf m := by
  induction m with
  | nil => simp [lookupA] at h
  | cons p t ih =>
      by_cases hk : p.1 = k
      · simp [setA, keysOf, beq_iff_eq, hk]
      · have h' : lookupA t k = some w := by simpa [lookupA, beq_iff_eq, hk] using h
        have hih := ih h'
        simp only [keysOf] at hih
        simp [setA, keysOf, beq_iff_eq, hk, hih]

theorem keysOf_setA_new (m : List (κ × β)) (k : κ) (v : β)
    (h : lookupA m k = Option.none) : keysOf (setA m k v) = keysOf m ++ [k] := by
  induction m with
  | nil => simp [setA, keysOf]
  | cons p t ih =>
      by_cases hk : p.1 = k
      · simp [lookupA, beq_iff_eq, hk] at h
      · have h' : lookupA t k = Option.none := by simpa [lookupA, beq_iff_eq, hk] using h
        have hih := ih h'
        simp only [keysOf] at hih
        simp [setA, keysOf, beq_iff_eq, hk, hih]

theorem lookupA_isSome_iff (m : List (κ × β)) (k : κ) :
    (lookupA m k).isSome = true ↔ k ∈ keysOf m := by
  induction m with
  | nil => simp [lookupA, keysOf]
  | cons p t ih =>
      by_cases hk : p.1 = k
      · simp [lookupA, keysOf, beq_iff_eq, hk]
      · have hk2 : ¬(k = p.1) := fun hh => hk hh.symm
        simp [lookupA, keysOf, beq_iff_eq, hk, hk2, ih]

theorem keysOf_setA_nodup (m : List (κ × β)) (k : κ) (v : β)
    (h : (keysOf m).Nodup) : (keysOf (setA m k v)).Nodup := by
  cases hlk : lookupA m k with
  | none =>
      rw [keysOf_setA_new m k v hlk]
      have hnot : k ∉ keysOf m := by
        rw [← lookupA_isSome_iff, hlk]
        simp
      simp [List.nodup_append, h, hnot]
  | some w => rw [keysOf_setA_mem m k v hlk]; exact h

theorem mem_iff_lookupA (m : List (κ × β)) (hnd : (keysOf m).Nodup) (k : κ) (r : β) :
    (k, r) ∈ m ↔ lookupA m k = some r := by
  induction m with
  | nil => simp [lookupA]
  | cons p t ih =>
      have hnd' : (keysOf t).Nodup := (List.nodup_cons.mp hnd).2
      have hp1 : p.1 ∉ keysOf t := (List.nodup_cons.mp hnd).1
      by_cases hk : p.1 = k
      · subst hk
        have hlk : lookupA (p :: t) p.1 = some p.2 := by simp [lookupA]
        rw [hlk]
        constructor
        · intro hmem
          rcases List.mem_cons.mp hmem with h | h
          · rw [← h]
          · exact absurd (by simpa [keysOf] using List.mem_map_of_mem Prod.fst h) hp1
        · intro h
          have h2 : p.2 = r := Option.some.inj h
          rw [← h2]
          exact List.mem_cons_self _ _
      · have hlk : lookupA (p :: t) k = lookupA t k := by simp [lookupA, beq_iff_eq, hk]
        rw [hlk, ← ih hnd']
        constructor
        · intro hmem
          rcases List.mem_cons.mp hmem with h | h
          · exact absurd (congrArg Prod.fst h).symm hk
          · exact h
        · intro h
          exact List.mem_cons_of_mem p h

theorem setA_preserves {P : κ × β → Prop} (m : List (κ × β)) (k : κ) (v : β)
    (hm : ∀ p ∈ m, P p) (hkv : P (k, v)) : ∀ p ∈ setA m k v, P p := by
  induction m with
  | nil => simpa [setA] using hkv
  | cons q t ih =>
      by_cases hk : q.1 = k
      · intro p hp
        have hrw : setA (q :: t) k v = (k, v) :: t := by simp [setA, beq_iff_eq, hk]
        rw [hrw] at hp
        rcases List.mem_cons.mp hp with h | h
        · rw [h]; exact hkv
        · exact hm p (List.mem_cons_of_mem q h)
      · intro p hp
        have hrw : setA (q :: t) k v = q :: setA t k v := by simp [setA, beq_iff_eq, hk]
        rw [hrw] at hp
        rcases List.mem_cons.mp hp with h | h
        · rw [h]; exact hm q (List.mem_cons_self _ _)
        · exact ih (fun p hp => hm p (List.mem_cons_of_mem q hp)) p h

end AssocLemmas

/-! ## Claim C2 — the Deduplicator -/

theorem except_bind_ok {ε α β : Type} (x : α) (f : α → Except ε β) :
    (Except.ok x >>= f) = f x := rfl

/-- One textual input advances `dedupe_articles`' loop by `stepT`. -/
theorem dedupeGo_cons (nowIso : String) (seen : List (PyVal × Rec')) (a : Rec')
    (rest : List Rec') (ha : textual a = true) :
    dedupeGo nowIso seen (a :: rest) = dedupeGo nowIso (stepT nowIso seen a) rest := by
  have hn : normalize_article a (pyGet a "source") nowIso = .ok (normD nowIso a) :=
    norm_ok a (pyGet a "source") nowIso ha
  simp only [dedupeGo]
  rw [hn, except_bind_ok]
  simp only [stepT]
  cases hlk : lookupA seen (pyGet (normD nowIso a) "id") with
  | none => rfl
  | some existing =>
      by_cases hlt : contentLenR existing < contentLenR (normD nowIso a)
      · simp [hlt]
      · simp [hlt]

/-- On textual inputs the dedup loop raises nothing and computes its total
companion. -/
theorem dedupeGo_ok (nowIso : String) (arts : List Rec') :
    ∀ seen, (∀ a ∈ arts, textual a = true) →
      dedupeGo nowIso seen arts = .ok (dedupeGoT nowIso seen arts) := by
  induction arts with
  | nil => intro seen _; rfl
  | cons a rest ih =>
      intro seen h
      rw [dedupeGo_cons nowIso seen a rest (h a (List.mem_cons_self _ _)),
        ih (stepT nowIso seen a) (fun b hb => h b (List.mem_cons_of_mem a hb))]
      rfl

/-- The retained record at key `k` after one step is the reference
collision rule applied to the previously retained record. -/
theorem lookupA_stepT (nowIso : String) (seen : List (PyVal × Rec')) (a : Rec') (k : PyVal) :
    lookupA (stepT nowIso seen a) k = stepO nowIso k (lookupA seen k) a := by
  by_cases hk : pyGet (normD nowIso a) "id" = k
  · subst hk
    simp only [stepT, stepO, beq_self_eq_true, if_true]
    cases hlk : lookupA seen (pyGet (normD nowIso a) "id") with
    | none => simp [lookupA_setA_self]
    | some c =>
        by_cases hlt : contentLenR c < contentLenR (normD nowIso a)
        · simp [hlt, lookupA_setA_self]
        · simp [hlt, hlk]
  · have hbk : (pyGet (normD nowIso a) "id" == k) = false := by
      simp [beq_iff_eq, hk]
    have hne : k ≠ pyGet (normD nowIso a) "id" := fun hh => hk hh.symm
    simp only [stepT, stepO, hbk, Bool.false_eq_true, if_false]
    cases hlk : lookupA seen (pyGet (normD nowIso a) "id") with
    | none => simp [lookupA_setA_ne _ _ _ _ hne]
    | some c =>
        by_cases hlt : contentLenR c < contentLenR (normD nowIso a)
        · simp [hlt, lookupA_setA_ne _ _ _ _ hne]
        · simp [hlt]

/-- The retained record per key after the whole loop is the reference fold
of the collision rule over the inputs. -/
theorem lookupA_dedupeGoT (nowIso : String) (arts : List Rec') :
    ∀ (seen : List (PyVal × Rec')) (k : PyVal),
      lookupA (dedupeGoT nowIso seen arts) k =
        retainedFrom nowIso k (lookupA seen k) arts := by
  induction arts with
  | nil => intro seen k; rfl
  | cons a rest ih =>
      intro seen k
      show lookupA (dedupeGoT nowIso (stepT nowIso seen a) rest) k =
        retainedFrom nowIso k (stepO nowIso k (lookupA seen k) a) rest
      rw [ih, lookupA_stepT]

theorem keysOf_stepT_mem (nowIso : String) (seen : List (PyVal × Rec')) (a : Rec') (k : PyVal) :
    k ∈ keysOf (stepT nowIso seen a) ↔
      k ∈ keysOf seen ∨ k = pyGet (normD nowIso a) "id" := by
  simp only [stepT]
  cases hlk : lookupA seen (pyGet (normD nowIso a) "id") with
  | none =>
      simp [keysOf_setA_new _ _ _ hlk]
  | some ex =>
      have hmem : pyGet (normD nowIso a) "id" ∈ keysOf seen := by
        rw [← lookupA_isSome_iff, hlk]
        rfl
      have hiff : k ∈ keysOf seen ↔ k ∈ keysOf seen ∨ k = pyGet (normD nowIso a) "id" :=
        ⟨Or.inl, fun h => h.elim id (fun he => he ▸ hmem)⟩
      by_cases hlt : contentLenR ex < contentLenR (normD nowIso a)
      · simpa [hlt, keysOf_setA_mem _ _ _ hlk] using hiff
      · simpa [hlt] using hiff

theorem keysOf_dedupeGoT_mem (nowIso : String) (arts : List Rec') :
    ∀ (seen : List (PyVal × Rec')) (k : PyVal),
      k ∈ keysOf (dedupeGoT nowIso seen arts) ↔
        k ∈ keysOf seen ∨ k ∈ arts.map (fun a => pyGet (normD nowIso a) "id") := by
  induction arts with
  | nil => intro seen k; simp [dedupeGoT]
  | cons a rest ih =>
      intro seen k
      show k ∈ keysOf (dedupeGoT nowIso (stepT nowIso seen a) rest) ↔ _
      rw [ih, keysOf_stepT_mem]
      simp only [List.map_cons, List.mem_cons]
      tauto

theorem keysOf_stepT_nodup (nowIso : String) (seen : List (PyVal × Rec')) (a : Rec')
    (h : (keysOf seen).Nodup) : (keysOf (stepT nowIso seen a)).Nodup := by
  simp only [stepT]
  cases hlk : lookupA seen (pyGet (normD nowIso a) "id") with
  | none => exact keysOf_setA_nodup _ _ _ h
  | some ex =>
      by_cases hlt : contentLenR ex < contentLenR (normD nowIso a)
      · simpa [hlt] using keysOf_setA_nodup seen (pyGet (normD nowIso a) "id") (normD nowIso a) h
      · simpa [hlt] using h

theorem keysOf_dedupeGoT_nodup (nowIso : String) (arts : List Rec') :
    ∀ seen, (keysOf seen).Nodup → (keysOf (dedupeGoT nowIso seen arts)).Nodup := by
  induction arts with
  | nil => intro seen h; exact h
  | cons a rest ih =>
      intro seen h
      exact ih (stepT nowIso seen a) (keysOf_stepT_nodup nowIso seen a h)

theorem entries_key_stepT (nowIso : String) (seen : List (PyVal × Rec')) (a : Rec')
    (h : ∀ p ∈ seen, pyGet p.2 "id" = p.1) :
    ∀ p ∈ stepT nowIso seen a, pyGet p.2 "id" = p.1 := by
  simp only [stepT]
  cases hlk : lookupA seen (pyGet (normD nowIso a) "id") with
  | none => exact setA_preserves _ _ _ h rfl
  | some ex =>
      by_cases hlt : contentLenR ex < contentLenR (normD nowIso a)
      · intro p hp
        refine setA_preserves seen (pyGet (normD nowIso a) "id") (normD nowIso a) h rfl p ?_
        simpa [hlt] using hp
      · intro p hp
        refine h p ?_
        simpa [hlt] using hp

theorem entries_key_dedupeGoT (nowIso : String) (arts : List Rec') :
    ∀ seen, (∀ p ∈ seen, pyGet p.2 "id" = p.1) →
      ∀ p ∈ dedupeGoT nowIso seen arts, pyGet p.2 "id" = p.1 := by
  induction arts with
  | nil => intro seen h; exact h
  | cons a rest ih =>
      intro seen h
      exact ih (stepT nowIso seen a) (entries_key_stepT nowIso seen a h)

/-- C2 (confirmed): `dedupe_articles` keeps exactly one record per distinct
(re-computed) `id`, and the record kept for id `k` is `retainedFor k`:
the first record with that id in input order, replaced by a later one
exactly when that one's content is strictly longer in characters — with
equal lengths the first-seen record is retained. -/
theorem c2_dedupe_spec (nowIso : String) (arts : List Rec')
    (h : ∀ a ∈ arts, textual a = true) :
    ∃ out, dedupe_articles arts nowIso = .ok out ∧
      (out.map (fun r => pyGet r "id")).Nodup ∧
      (∀ k : PyVal, k ∈ out.map (fun r => pyGet r "id") ↔
        k ∈ arts.map (fun a => pyGet (normD nowIso a) "id")) ∧
      (∀ r : Rec', r ∈ out ↔ ∃ k, k ∈ arts.map (fun a => pyGet (normD nowIso a) "id") ∧
        retainedFor nowIso k arts = some r) := by
  have hok : dedupe_articles arts nowIso =
      .ok ((dedupeGoT nowIso [] arts).map (fun p => p.2)) := by
    unfold dedupe_articles
    rw [dedupeGo_ok nowIso arts [] h, except_bind_ok]
    rfl
  have hnodup : (keysOf (dedupeGoT nowIso [] arts)).Nodup :=
    keysOf_dedupeGoT_nodup nowIso arts [] (by simp [keysOf])
  have hkeys : ∀ p ∈ dedupeGoT nowIso [] arts, pyGet p.2 "id" = p.1 :=
    entries_key_dedupeGoT nowIso arts [] (by simp)
  have hidmap : ((dedupeGoT nowIso [] arts).map (fun p => p.2)).map (fun r => pyGet r "id") =
      keysOf (dedupeGoT nowIso [] arts) := by
    rw [List.map_map]
    exact List.map_congr_left hkeys
  refine ⟨(dedupeGoT nowIso [] arts).map (fun p => p.2), hok, ?_, ?_, ?_⟩
  · rw [hidmap]; exact hnodup
  · intro k
    rw [hidmap, keysOf_dedupeGoT_mem nowIso arts [] k]
    simp [keysOf]
  · intro r
    constructor
    · intro hr
      obtain ⟨p, hp, hpr⟩ := List.mem_map.mp hr
      refine ⟨p.1, ?_, ?_⟩
      · have hink : p.1 ∈ keysOf (dedupeGoT nowIso [] arts) :=
          List.mem_map_of_mem (fun q => q.1) hp
        rw [keysOf_dedupeGoT_mem nowIso arts [] p.1] at hink
        simpa [keysOf] using hink
      · have hlk : lookupA (dedupeGoT nowIso [] arts) p.1 = some p.2 :=
          (mem_iff_lookupA (dedupeGoT nowIso [] arts) hnodup p.1 p.2).mp hp
        have hchar := lookupA_dedupeGoT nowIso arts [] p.1
        rw [hlk] at hchar
        rw [← hpr]
        exact hchar.symm
    · rintro ⟨k, hkmem, hret⟩
      have hlk : lookupA (dedupeGoT nowIso [] arts) k = some r := by
        rw [lookupA_dedupeGoT nowIso arts [] k]
        exact hret
      exact List.mem_map.mpr ⟨(k, r),
        (mem_iff_lookupA (dedupeGoT nowIso [] arts) hnodup k r).mpr hlk, rfl⟩

/-- Witness for C2: two records colliding on one id (contents of length 4
and 2, longer second) plus a distinct third record. -/
theorem c2_dedupe_spec_witness :
    ∃ out, dedupe_articles
        [[("title", PyVal.str "t"), ("url", PyVal.str "u"), ("content", PyVal.str "ab")],
         [("title", PyVal.str "t"), ("url", PyVal.str "u"), ("content", PyVal.str "abcd")],
         [("title", PyVal.str "other"), ("url", PyVal.str "w")]] "NOW" = .ok out ∧
      (out.map (fun r => pyGet r "id")).Nodup ∧
      (∀ k : PyVal, k ∈ out.map (fun r => pyGet r "id") ↔
        k ∈ [[("title", PyVal.str "t"), ("url", PyVal.str "u"), ("content", PyVal.str "ab")],
             [("title", PyVal.str "t"), ("url", PyVal.str "u"), ("content", PyVal.str "abcd")],
             [("title", PyVal.str "other"), ("url", PyVal.str "w")]].map
          (fun a => pyGet (normD "NOW" a) "id")) ∧
      (∀ r : Rec', r ∈ out ↔ ∃ k,
        k ∈ [[("title", PyVal.str "t"), ("url", PyVal.str "u"), ("content", PyVal.str "ab")],
             [("title", PyVal.str "t"), ("url", PyVal.str "u"), ("content", PyVal.str "abcd")],
             [("title", PyVal.str "other"), ("url", PyVal.str "w")]].map
          (fun a => pyGet (normD "NOW" a) "id") ∧
        retainedFor "NOW" k
          [[("title", PyVal.str "t"), ("url", PyVal.str "u"), ("content", PyVal.str "ab")],
           [("title", PyVal.str "t"), ("url", PyVal.str "u"), ("content", PyVal.str "abcd")],
           [("title", PyVal.str "other"), ("url", PyVal.str "w")]] = some r) :=
  c2_dedupe_spec "NOW"
    [[("title", PyVal.str "t"), ("url", PyVal.str "u"), ("content", PyVal.str "ab")],
     [("title", PyVal.str "t"), ("url", PyVal.str "u"), ("content", PyVal.str "abcd")],
     [("title", PyVal.str "other"), ("url", PyVal.str "w")]] (by decide)

/-! ## Claim C1 — idempotence of normalization (code defect) -/

/-- C1 (code defect): `normalize_article` writes the url under
`source_url` but reads it back from `url`/`link`, so re-normalizing an
already-normalized Article — which `dedupe_articles` always does — empties
`source_url` and changes `id` to the hash of the title alone.  `title` and
`content` do survive; idempotence fails on `source_url` and `id`. -/
theorem c1_renormalize_not_idempotent :
    pyGet c1norm "source_url" = .str "u" ∧
    pyGet c1renorm "source_url" = .str "" ∧
    pyGet c1renorm "title" = pyGet c1norm "title" ∧
    pyGet c1renorm "content" = pyGet c1norm "content" ∧
    pyGet c1renorm "id" ≠ pyGet c1norm "id" := by
  decide

/-! ## Claim C6 — the annotation versus the dedup stage (code defect) -/

/-- C6 (code defect): `app.py` attaches `source_detected_mf` to each
Article **before** deduplication, and `dedupe_articles` re-normalizes every
input into a fresh dict holding exactly the Normalizer's eight keys — so
the annotation (and every other extra key) is stripped from every record
the session pipeline returns; no record carries `source_detected_mf` after
dedup, contradicting the claimed attach-after-dedup flow. -/
theorem c6_annotation_stripped_by_dedupe :
    pyGet c6annotated "source_detected_mf" = .list ["SBI Mutual Fund"] ∧
    c6out.map (fun r => pyGet r "source_detected_mf") = [.none] ∧
    c6out.map keysOf =
      [["title", "description", "content", "source_url", "published", "source", "summary",
        "id"]] := by
  decide

end FnoNews

